import Mathlib

/-!
Verification of the Detrended Price Oscillator (DPO) indicator
(`src/jesse/indicators/dpo.py`).

The engine `_dpo(source, period)` is embedded shallowly:

* prices are rational numbers (`ℚ`), the IEEE `nan` sentinel that marks
  "not yet computable" positions is `Option.none`;
* numpy arrays are Lean lists; numpy slicing with possibly negative bounds
  (`a[k:]`, `a[:k]`), broadcasting of elementwise subtraction and of slice
  assignment, `np.roll`, and the cumulative-sum loop are each translated
  by a dedicated definition below;
* a numpy shape-mismatch failure (a raised `ValueError`) is `Option.none`
  at the level of the whole computation, so the engine has type
  `List ℚ → ℤ → Option (List (Option ℚ))`;
* Python's floor division `//` and floor modulus `%` coincide with `Int`'s
  `/` (Euclidean) division and `%` for the positive divisors used here.

The public entry point `dpo` delegates candle handling to helpers
(`slice_candles`, `get_candle_source`, `same_length`) whose sources are not
part of the repository snapshot; those are modelled from the specification
(see the doc comments on `slice_candles`, `same_length` and `dpo`).
-/

namespace JesseDPO

/-- Resolution of a (possibly negative) Python slice bound `k` against a
sequence of length `len`: nonnegative bounds are clamped to `len`,
negative bounds count from the end (clamped to `0`). -/
def pyIdx (len : ℕ) (k : ℤ) : ℕ :=
  if 0 ≤ k then min k.toNat len else ((len : ℤ) + k).toNat

/-- The numpy slice `a[k:]`. -/
def sliceFrom (a : List ℚ) (k : ℤ) : List ℚ := a.drop (pyIdx a.length k)

/-- The numpy slice `a[:k]`. -/
def sliceTo (a : List ℚ) (k : ℤ) : List ℚ := a.take (pyIdx a.length k)

/-- Elementwise numpy subtraction `a - b` of one-dimensional arrays,
including broadcasting of a length-1 operand; `none` is the shape-mismatch
`ValueError` numpy raises on incompatible lengths. -/
def bsub (a b : List ℚ) : Option (List ℚ) :=
  if a.length = b.length then some (List.zipWith (· - ·) a b)
  else if a.length = 1 then some (b.map (fun x => a.getD 0 0 - x))
  else if b.length = 1 then some (a.map (fun x => x - b.getD 0 0))
  else none

/-- The numpy slice assignment `a[k:] = rhs`, including broadcasting of a
length-1 right-hand side; `none` is the shape-mismatch `ValueError`. -/
def assignFrom (a : List ℚ) (k : ℤ) (rhs : List ℚ) : Option (List ℚ) :=
  let s := pyIdx a.length k
  let m := a.length - s
  if rhs.length = m then some (a.take s ++ rhs)
  else if rhs.length = 1 then some (a.take s ++ List.replicate m (rhs.getD 0 0))
  else none

/-- The cumulative-sum loop of `_dpo`: `temp = [0] ++ source`,
`cumsum[0] = 0`, `cumsum[i] = cumsum[i-1] + temp[i]`, which is exactly the
left scan of addition starting at `0` (length `len(source) + 1`). -/
def cumsum (source : List ℚ) : List ℚ := List.scanl (· + ·) 0 source

/-- `np.roll(a, s)`: entry `i` of the result is `a[(i - s) mod len(a)]`. -/
def roll (a : List ℚ) (s : ℤ) : List ℚ :=
  (List.range a.length).map
    (fun (i : ℕ) => a.getD (((i : ℤ) - s) % (a.length : ℤ)).toNat 0)

/-- The shift computed by `_dpo`: `period // 2 + 1` (Python floor division,
which agrees with `Int` division for the positive divisor `2`). -/
def dpoShift (period : ℤ) : ℤ := period / 2 + 1

/-- The start of the valid region of the output: the first
`period - 1 + shift` entries are overwritten with the sentinel. -/
def dpoCutoff (period : ℤ) : ℤ := period - 1 + dpoShift period

/-- The engine `_dpo(source, period)` of `src/jesse/indicators/dpo.py`:
shift computation, SMA via a cumulative sum and the slice assignment
`sma[period-1:] = (cumsum[period:] - cumsum[:-period]) / period`,
circular roll of the price series by `shift`, subtraction, and masking of
the first `period - 1 + shift` positions with the sentinel.  `none` is a
raised numpy shape-mismatch error; the sentinel positions of a returned
series are `Option.none` entries. -/
def _dpo (source : List ℚ) (period : ℤ) : Option (List (Option ℚ)) :=
  let shift := dpoShift period
  let n := source.length
  let cs := cumsum source
  match bsub (sliceFrom cs period) (sliceTo cs (-period)) with
  | none => none
  | some diff =>
    match assignFrom (List.replicate n 0) (period - 1)
        (diff.map (fun x => x / (period : ℚ))) with
    | none => none
    | some sma =>
      let shifted := roll source shift
      let dpoRaw := List.zipWith (· - ·) shifted sma
      let mask := pyIdx n (dpoCutoff period)
      some ((List.range n).map
        (fun i => if i < mask then none else some (dpoRaw.getD i 0)))

/-- Return type of the public entry point: a scalar (last output value,
possibly the sentinel) when `sequential` is false, a full series when it
is true. -/
inductive DpoReturn where
  | scalar : Option ℚ → DpoReturn
  | series : List (Option ℚ) → DpoReturn
deriving DecidableEq

/-- Modelled from the spec: `slice_candles` is not under `src/`.  Per §6 it
returns the candles unchanged when `sequential` is true and otherwise
restricts to the minimal trailing window the engine needs, which is
`cutoff + 1` entries (the least length producing one defined value).
Candles are abstracted by their extracted price series, so the field
extraction collaborator `get_candle_source` is the identity here. -/
def slice_candles (source : List ℚ) (sequential : Bool) (period : ℤ) : List ℚ :=
  if sequential then source
  else source.drop (source.length - ((dpoCutoff period).toNat + 1))

/-- Modelled from the spec: `same_length` is not under `src/`.  Per §6 it
left-pads the result with the undefined sentinel until its length equals
the original candle count. -/
def same_length (originalLen : ℕ) (res : List (Option ℚ)) : List (Option ℚ) :=
  List.replicate (originalLen - res.length) none ++ res

/-- The public entry point `dpo(candles, period, source_type, sequential)`
of `src/jesse/indicators/dpo.py`, with candles abstracted by their
extracted price series: it slices the candles, runs the engine, and
returns either the padded full series (`sequential = true`) or the last
element `res[-1]` of the result (`sequential = false`).  `none` is a
raised error: either a numpy error from the engine or the `IndexError`
of `res[-1]` on an empty result. -/
def dpo (candles : List ℚ) (period : ℤ) (sequential : Bool) : Option DpoReturn :=
  let sliced := slice_candles candles sequential period
  match _dpo sliced period with
  | none => none
  | some res =>
    if sequential then some (.series (same_length sliced.length res))
    else match res.getLast? with
         | none => none
         | some v => some (.scalar v)

/-! ## Helper lemmas -/

theorem scanl_add_getD (l : List ℚ) (a : ℚ) (i : ℕ) (h : i ≤ l.length) :
    (List.scanl (· + ·) a l).getD i 0 = a + (l.take i).sum := by
  induction l generalizing a i with
  | nil =>
    have : i = 0 := by simpa using h
    subst this
    simp
  | cons x xs ih =>
    cases i with
    | zero => simp
    | succ j =>
      rw [List.scanl_cons]
      have hj : j ≤ xs.length := by simpa using h
      have := ih (a + x) j hj
      simp only [List.cons_append, List.nil_append, List.getD_cons_succ, this,
        List.take_succ_cons, List.sum_cons]
      ring

theorem cumsum_getD (source : List ℚ) (i : ℕ) (h : i ≤ source.length) :
    (cumsum source).getD i 0 = (source.take i).sum := by
  simpa using scanl_add_getD source 0 i h

theorem cumsum_length (source : List ℚ) :
    (cumsum source).length = source.length + 1 := by
  simp [cumsum, List.length_scanl]

theorem getD_range_map {α : Type} (n i : ℕ) (f : ℕ → α) (d : α) (h : i < n) :
    ((List.range n).map f).getD i d = f i := by
  rw [List.getD_eq_getElem?_getD, List.getElem?_map, List.getElem?_range h]
  rfl

theorem getD_drop (l : List ℚ) (i j : ℕ) (d : ℚ) :
    (l.drop i).getD j d = l.getD (i + j) d := by
  rw [List.getD_eq_getElem?_getD, List.getD_eq_getElem?_getD, List.getElem?_drop]

theorem getD_take (l : List ℚ) (i j : ℕ) (d : ℚ) (h : j < i) :
    (l.take i).getD j d = l.getD j d := by
  rw [List.getD_eq_getElem?_getD, List.getD_eq_getElem?_getD, List.getElem?_take,
    if_pos h]

theorem getD_zipWith_sub (a b : List ℚ) (i : ℕ) (h₁ : i < a.length)
    (h₂ : i < b.length) :
    (List.zipWith (· - ·) a b).getD i 0 = a.getD i 0 - b.getD i 0 := by
  have hlen : i < (List.zipWith (· - ·) a b).length := by
    rw [List.length_zipWith]; omega
  rw [List.getD_eq_getElem _ _ hlen, List.getElem_zipWith,
    List.getD_eq_getElem _ _ h₁, List.getD_eq_getElem _ _ h₂]

theorem getD_map_div (l : List ℚ) (c : ℚ) (i : ℕ) (h : i < l.length) :
    (l.map (fun x => x / c)).getD i 0 = l.getD i 0 / c := by
  have hlen : i < (l.map (fun x => x / c)).length := by simpa using h
  rw [List.getD_eq_getElem _ _ hlen, List.getElem_map, List.getD_eq_getElem _ _ h]

theorem drop_min_length {α : Type} (l : List α) (k : ℕ) :
    l.drop (min k l.length) = l.drop k := by
  rcases le_total k l.length with h | h
  · rw [min_eq_left h]
  · rw [min_eq_right h, List.drop_eq_nil_of_le le_rfl, List.drop_eq_nil_of_le h]

/-- Closed form of the engine for a positive period, following the spec's
defined-region formula: the computation succeeds, and entry `i` is the
sentinel below the cutoff `P - 1 + (P/2 + 1)` and otherwise the price
`P/2 + 1` positions back minus the mean of the `P` prices ending at `i`. -/
theorem dpo_pos_eq (source : List ℚ) (p : ℕ) (hp : 1 ≤ p) :
    _dpo source (p : ℤ) = some ((List.range source.length).map (fun i =>
      if i < p - 1 + (p / 2 + 1) then none
      else some (source.getD (i - (p / 2 + 1)) 0
        - ((source.drop (i + 1 - p)).take p).sum / (p : ℚ)))) := by
  have hcs := cumsum_length source
  have hpyA : pyIdx (source.length + 1) (p : ℤ) = min p (source.length + 1) := by
    unfold pyIdx; split <;> omega
  have hpyB : pyIdx (source.length + 1) (-(p : ℤ)) = source.length + 1 - p := by
    unfold pyIdx; split <;> omega
  have hA : sliceFrom (cumsum source) (p : ℤ) = (cumsum source).drop p := by
    simp only [sliceFrom, hcs, hpyA]
    rw [show min p (source.length + 1) = min p (cumsum source).length by rw [hcs]]
    exact drop_min_length _ _
  have hB : sliceTo (cumsum source) (-(p : ℤ))
      = (cumsum source).take (source.length + 1 - p) := by
    simp only [sliceTo, hcs, hpyB]
  have hAlen : ((cumsum source).drop p).length = source.length + 1 - p := by
    rw [List.length_drop, hcs]
  have hBlen : ((cumsum source).take (source.length + 1 - p)).length
      = source.length + 1 - p := by
    rw [List.length_take, hcs]; omega
  have hdiff : bsub (sliceFrom (cumsum source) (p : ℤ))
      (sliceTo (cumsum source) (-(p : ℤ)))
      = some (List.zipWith (· - ·) ((cumsum source).drop p)
          ((cumsum source).take (source.length + 1 - p))) := by
    rw [hA, hB]; unfold bsub; rw [if_pos (by rw [hAlen, hBlen])]
  have hDlen : ((List.zipWith (· - ·) ((cumsum source).drop p)
      ((cumsum source).take (source.length + 1 - p))).map
        (fun x => x / (p : ℚ))).length = source.length + 1 - p := by
    rw [List.length_map, List.length_zipWith, hAlen, hBlen]; omega
  have hpyC : pyIdx source.length ((p : ℤ) - 1) = min (p - 1) source.length := by
    unfold pyIdx; split <;> omega
  have hsma : assignFrom (List.replicate source.length (0 : ℚ)) ((p : ℤ) - 1)
      ((List.zipWith (· - ·) ((cumsum source).drop p)
        ((cumsum source).take (source.length + 1 - p))).map (fun x => x / (p : ℚ)))
      = some (List.replicate (min (p - 1) source.length) 0 ++
          (List.zipWith (· - ·) ((cumsum source).drop p)
            ((cumsum source).take (source.length + 1 - p))).map
              (fun x => x / (p : ℚ))) := by
    unfold assignFrom
    simp only [List.length_replicate, hpyC]
    rw [if_pos (by omega), List.take_replicate]
    rw [show min (p - 1) source.length ⊓ source.length = min (p - 1) source.length
      by omega]
  have hmask : pyIdx source.length (dpoCutoff (p : ℤ))
      = min (p - 1 + (p / 2 + 1)) source.length := by
    unfold pyIdx dpoCutoff dpoShift; split <;> omega
  simp only [_dpo, Int.cast_natCast, hdiff, hsma, hmask]
  congr 1
  apply List.map_congr_left
  intro i hmem
  rw [List.mem_range] at hmem
  by_cases hcut : i < p - 1 + (p / 2 + 1)
  · rw [if_pos (by omega), if_pos hcut]
  · rw [if_neg (by omega), if_neg hcut]
    congr 1
    have hple : p - 1 + (p / 2 + 1) ≤ i := by omega
    have hpn : p ≤ source.length := by omega
    have hrolllen : (roll source (dpoShift (p : ℤ))).length = source.length := by
      simp only [roll, List.length_map, List.length_range]
    have hsmalen : (List.replicate (min (p - 1) source.length) (0 : ℚ) ++
        (List.zipWith (· - ·) ((cumsum source).drop p)
          ((cumsum source).take (source.length + 1 - p))).map
            (fun x => x / (p : ℚ))).length = source.length := by
      rw [List.length_append, List.length_replicate, hDlen]; omega
    rw [getD_zipWith_sub _ _ i (by omega) (by omega)]
    have hroll : (roll source (dpoShift (p : ℤ))).getD i 0
        = source.getD (i - (p / 2 + 1)) 0 := by
      simp only [roll]
      rw [getD_range_map source.length i _ 0 hmem]
      have hidx : (((i : ℤ) - dpoShift (p : ℤ)) % ((source.length : ℕ) : ℤ)).toNat
          = i - (p / 2 + 1) := by
        unfold dpoShift
        rw [Int.emod_eq_of_lt (by omega) (by omega)]
        omega
      rw [hidx]
    rw [hroll]
    have hmin : min (p - 1) source.length = p - 1 := by omega
    rw [hmin, List.getD_append_right _ _ _ _ (by rw [List.length_replicate]; omega),
      List.length_replicate]
    rw [getD_map_div _ _ _ (by rw [List.length_zipWith, hAlen, hBlen]; omega)]
    rw [getD_zipWith_sub _ _ _ (by rw [hAlen]; omega) (by rw [hBlen]; omega)]
    rw [getD_drop, getD_take _ _ _ _ (by omega)]
    rw [show p + (i - (p - 1)) = i + 1 by omega]
    rw [cumsum_getD _ _ (by omega), cumsum_getD _ _ (by omega)]
    rw [show i - (p - 1) = i + 1 - p by omega]
    rw [show source.take (i + 1)
        = source.take (i + 1 - p) ++ (source.drop (i + 1 - p)).take p by
      rw [← List.take_add]; congr 1; omega]
    rw [List.sum_append]
    ring

/-- The ten-element price series of the spec's worked scenario. -/
def sampleSeries : List ℚ := [1, 2, 3, 4, 5, 6, 7, 8, 9, 10]

/-! ## Claims -/

/-- C1: for every price series, every period `P ≥ 1`, and every output
index `i` with `P - 1 + (P/2 + 1) ≤ i < N`, the engine's output at `i`
equals `prices[i - (P/2 + 1)]` minus the arithmetic mean of
`prices[i-P+1 .. i]`. -/
theorem C1_defined_region_formula (source : List ℚ) (p i : ℕ) (hp : 1 ≤ p)
    (hlo : p - 1 + (p / 2 + 1) ≤ i) (hhi : i < source.length) :
    ∃ out, _dpo source (p : ℤ) = some out ∧
      out.getD i none = some (source.getD (i - (p / 2 + 1)) 0
        - ((source.drop (i + 1 - p)).take p).sum / (p : ℚ)) := by
  refine ⟨_, dpo_pos_eq source p hp, ?_⟩
  rw [getD_range_map source.length i _ none hhi, if_neg (by omega)]

theorem C1_defined_region_formula_witness :
    ∃ out, _dpo sampleSeries ((5 : ℕ) : ℤ) = some out ∧
      out.getD 7 none = some (sampleSeries.getD (7 - (5 / 2 + 1)) 0
        - ((sampleSeries.drop (7 + 1 - 5)).take 5).sum / ((5 : ℕ) : ℚ)) :=
  C1_defined_region_formula sampleSeries 5 7 (by norm_num) (by norm_num)
    (by norm_num [sampleSeries])

/-- C3: for every period `P ≥ 1` and every price series shorter than `P`
(including the empty one), the engine does not fail and returns a series
of the same length in which every entry is the undefined sentinel. -/
theorem C3_short_series_all_undefined (source : List ℚ) (p : ℕ) (hp : 1 ≤ p)
    (hshort : source.length < p) :
    ∃ out, _dpo source (p : ℤ) = some out ∧ out.length = source.length ∧
      ∀ x ∈ out, x = none := by
  refine ⟨_, dpo_pos_eq source p hp, by simp, ?_⟩
  intro x hx
  rw [List.mem_map] at hx
  obtain ⟨i, hi, rfl⟩ := hx
  rw [List.mem_range] at hi
  rw [if_pos (by omega)]

theorem C3_short_series_all_undefined_witness :
    (1 ≤ 5 ∧ ([1, 2, 3] : List ℚ).length < 5) ∧
    ∃ out, _dpo ([1, 2, 3] : List ℚ) ((5 : ℕ) : ℤ) = some out ∧
      out.length = ([1, 2, 3] : List ℚ).length ∧ ∀ x ∈ out, x = none :=
  ⟨⟨by norm_num, by norm_num⟩,
    C3_short_series_all_undefined [1, 2, 3] 5 (by norm_num) (by norm_num)⟩

/-- C4: for every period `P ≥ 1` and every price series of (necessarily
finite, since prices are rationals here) values, an output entry at index
`i` is the undefined sentinel exactly when `i < P - 1 + P/2 + 1`; in
particular exactly the first `min(N, P - 1 + P/2 + 1)` entries are the
sentinel and every later entry is defined. -/
theorem C4_undefined_prefix_exact (source : List ℚ) (p : ℕ) (hp : 1 ≤ p) :
    ∃ out, _dpo source (p : ℤ) = some out ∧ out.length = source.length ∧
      ∀ i < source.length, (out.getD i none = none ↔ i < p - 1 + (p / 2 + 1)) := by
  refine ⟨_, dpo_pos_eq source p hp, by simp, ?_⟩
  intro i hi
  rw [getD_range_map source.length i _ none hi]
  by_cases h : i < p - 1 + (p / 2 + 1)
  · simp [h]
  · simp [h]

theorem C4_undefined_prefix_exact_witness :
    ∃ out, _dpo sampleSeries ((5 : ℕ) : ℤ) = some out ∧
      out.length = sampleSeries.length ∧
      ∀ i < sampleSeries.length,
        (out.getD i none = none ↔ i < 5 - 1 + (5 / 2 + 1)) :=
  C4_undefined_prefix_exact sampleSeries 5 (by norm_num)

/-- C5: for every period `P ≥ 1`, `shift ≤ cutoff` holds, so every output
index that reads a circularly wrapped price (every `i < shift`) lies
inside the undefined prefix and is reported as the sentinel. -/
theorem C5_wrap_inside_undefined_region (p : ℕ) (hp : 1 ≤ p) :
    dpoShift (p : ℤ) ≤ dpoCutoff (p : ℤ) ∧
    ∀ (source : List ℚ) (i : ℕ), (i : ℤ) < dpoShift (p : ℤ) →
      i < source.length →
      ∃ out, _dpo source (p : ℤ) = some out ∧ out.getD i none = none := by
  constructor
  · unfold dpoCutoff; omega
  · intro source i hiS hin
    refine ⟨_, dpo_pos_eq source p hp, ?_⟩
    rw [getD_range_map source.length i _ none hin,
      if_pos (by unfold dpoShift at hiS; omega)]

theorem C5_wrap_inside_undefined_region_witness :
    dpoShift ((5 : ℕ) : ℤ) ≤ dpoCutoff ((5 : ℕ) : ℤ) ∧
    ∃ out, _dpo sampleSeries ((5 : ℕ) : ℤ) = some out ∧
      out.getD 2 none = none :=
  ⟨(C5_wrap_inside_undefined_region 5 (by norm_num)).1,
    (C5_wrap_inside_undefined_region 5 (by norm_num)).2 sampleSeries 2
      (by decide) (by norm_num [sampleSeries])⟩

/-- C7: for every price series and every period `P ≥ 1`, the engine does
not fail and its output has the same length as the input, including the
all-undefined short-series case. -/
theorem C7_length_preservation (source : List ℚ) (p : ℕ) (hp : 1 ≤ p) :
    ∃ out, _dpo source (p : ℤ) = some out ∧ out.length = source.length :=
  ⟨_, dpo_pos_eq source p hp, by simp⟩

theorem C7_length_preservation_witness :
    ∃ out, _dpo ([1, 2, 3] : List ℚ) ((7 : ℕ) : ℤ) = some out ∧
      out.length = ([1, 2, 3] : List ℚ).length :=
  C7_length_preservation [1, 2, 3] 7 (by norm_num)

/-- C9: the engine is deterministic; any two calls on equal price series
with equal periods return equal (in the embedding: bit-identical) output
series.  In the pure shallow embedding this is function congruence: the
source has no nondeterministic primitive (no randomness, clock or I/O). -/
theorem C9_determinism (s1 s2 : List ℚ) (p1 p2 : ℤ) (hs : s1 = s2)
    (hp : p1 = p2) : _dpo s1 p1 = _dpo s2 p2 := by
  rw [hs, hp]

theorem C9_determinism_witness :
    _dpo sampleSeries 5 = _dpo sampleSeries 5 :=
  C9_determinism sampleSeries sampleSeries 5 5 rfl rfl

/-- C2 counterexample: the claim says every call with `period < 1` (in
particular `period = -3`) fails and produces no output.  On the code,
`period = -3` with a length-3 series raises nothing: every slice happens
to line up (`sma[-4:]`, `cumsum[-3:]` and `cumsum[:3]` all have length 3,
and `dpo[:-5]` is empty so no position is even masked), and a fully
"defined" series is returned. -/
theorem C2_counterexample :
    _dpo ([1, 2, 3] : List ℚ) (-3 : ℤ) =
      some [some (7 / 3), some (11 / 3), some 2] := by
  simp [_dpo, dpoShift, dpoCutoff, cumsum, bsub, sliceFrom, sliceTo, pyIdx,
    assignFrom, roll, List.scanl, List.range_succ]
  norm_num

/-- C2 amended: `_dpo` performs no period validation and defines no
`InvalidPeriod` error.  A call with `period < 1` usually dies with a numpy
shape-mismatch error — `period = 0` fails on every non-empty series, since
`cumsum[0:]` (length `N + 1 ≥ 2`) and `cumsum[:-0] = cumsum[:0]` (length
`0`) cannot be broadcast — but not always: `period = -3` on a length-3
series returns a series (see `C2_counterexample`). -/
theorem C2_zero_period_shape_error (source : List ℚ) (h : 1 ≤ source.length) :
    _dpo source (0 : ℤ) = none := by
  have hcs := cumsum_length source
  have h1 : sliceFrom (cumsum source) (0 : ℤ) = cumsum source := by
    simp [sliceFrom, pyIdx]
  have h2 : sliceTo (cumsum source) (-(0 : ℤ)) = [] := by
    simp [sliceTo, pyIdx]
  have h3 : bsub (cumsum source) [] = none := by
    unfold bsub
    simp only [List.length_nil]
    rw [if_neg (by omega), if_neg (by omega), if_neg (by omega)]
  simp only [_dpo, h1, h2, h3]

theorem C2_zero_period_shape_error_witness :
    1 ≤ ([1, 2, 3] : List ℚ).length ∧ _dpo ([1, 2, 3] : List ℚ) (0 : ℤ) = none :=
  ⟨by norm_num, C2_zero_period_shape_error [1, 2, 3] (by norm_num)⟩

/-- C6: on `[1,...,10]` with `period = 5` the engine has `shift = 3` and
`cutoff = 7`, output indices `0`–`6` are the sentinel, indices `7`, `8`,
`9` each equal `-1`, the public entry point with `sequential = false`
returns the scalar `-1`, and that scalar is the last element of the full
computation. -/
theorem C6_scenario :
    dpoShift 5 = 3 ∧ dpoCutoff 5 = 7 ∧
    _dpo sampleSeries 5 = some [none, none, none, none, none, none, none,
      some (-1), some (-1), some (-1)] ∧
    dpo sampleSeries 5 false = some (DpoReturn.scalar (some (-1))) ∧
    (_dpo sampleSeries 5).bind List.getLast? = some (some (-1)) := by
  refine ⟨by decide, by decide, ?_, ?_, ?_⟩
  · simp [sampleSeries, _dpo, dpoShift, dpoCutoff, cumsum, bsub, sliceFrom,
      sliceTo, pyIdx, assignFrom, roll, List.scanl, List.range_succ]
    norm_num
  · simp [sampleSeries, dpo, slice_candles, same_length, _dpo, dpoShift,
      dpoCutoff, cumsum, bsub, sliceFrom, sliceTo, pyIdx, assignFrom, roll,
      List.scanl, List.range_succ]
    norm_num
  · simp [sampleSeries, _dpo, dpoShift, dpoCutoff, cumsum, bsub, sliceFrom,
      sliceTo, pyIdx, assignFrom, roll, List.scanl, List.range_succ]
    norm_num

/-- C10: with `sequential = false` the entry point returns `res[-1]`
without an emptiness guard, so on a zero-length candle input the engine
itself succeeds with an empty series but the call fails (the `IndexError`
of `res[-1]`) instead of returning a sentinel value. -/
theorem C10_empty_input_index_error (p : ℕ) (hp : 1 ≤ p) :
    _dpo ([] : List ℚ) (p : ℤ) = some [] ∧ dpo [] (p : ℤ) false = none := by
  have h : _dpo ([] : List ℚ) (p : ℤ) = some [] := by
    have := dpo_pos_eq [] p hp
    simpa using this
  refine ⟨h, ?_⟩
  have hs : slice_candles [] false (p : ℤ) = ([] : List ℚ) := by
    simp [slice_candles]
  simp only [dpo, hs, h, List.getLast?_nil, Bool.false_eq_true, if_false]

theorem C10_empty_input_index_error_witness :
    _dpo ([] : List ℚ) ((5 : ℕ) : ℤ) = some [] ∧
    dpo [] ((5 : ℕ) : ℤ) false = none :=
  C10_empty_input_index_error 5 (by norm_num)

end JesseDPO
